import Mathlib

set_option maxRecDepth 20000

/-!
Verification development for the Testomat.io reporter client
(`src/lib/client.js`).

The embedding is trace-level: the promise chain `this.queue` becomes an explicit
FIFO list of tasks executed one at a time by an interpreter; the HTTP transport,
the artifact resolver (`./fileUploader`, not under `src/`) and the platform URL
parser are external collaborators whose outcomes are supplied by an `Env`
record; every network operation issued is recorded in a trace.  The
cycle-tolerant serializer (`json-cycle`, a dependency) is modelled separately
from the spec at the end of the development.
-/

/-- ANSI styling: `chalk.<style>(s)` wraps `s` in an open and a close escape code. -/
def ansiWrap (o c s : String) : String :=
  "\x1b[" ++ o ++ "m" ++ s ++ "\x1b[" ++ c ++ "m"

def chalkBold (s : String) : String := ansiWrap ("1") ("22") s

def chalkRed (s : String) : String := ansiWrap ("31") ("39") s

def chalkGreen (s : String) : String := ansiWrap ("32") ("39") s

/-- JS truthiness for an optional string value: `undefined` and `""` are falsy;
the result is `some s` exactly when the value is a non-empty string. -/
def truthyStr : Option String → Option String
  | some s => if s = "" then none else some s
  | none => none

/-- Modelled from the spec: `./constants` is required by the client but is not
under `src/`; the spec fixes the status set as the enumerated statuses
`passed` and `failed`. -/
def PASSED : String := "passed"

/-- Modelled from the spec: the `failed` member of the enumerated status set
(from the missing `./constants`). -/
def FAILED : String := "failed"

instance {ε α : Type} [DecidableEq ε] [DecidableEq α] : DecidableEq (Except ε α) := fun a b =>
  match a, b with
  | .ok x, .ok y =>
    if h : x = y then .isTrue (by rw [h]) else .isFalse (by simp [h])
  | .error x, .error y =>
    if h : x = y then .isTrue (by rw [h]) else .isFalse (by simp [h])
  | .ok _, .error _ => .isFalse (by simp)
  | .error _, .ok _ => .isFalse (by simp)

/-- A raised test failure at the boundary probed by `addTestRun`: its own
`message`, an optional custom `inspect()` rendering, optional `actual` /
`expected` values (given here already coerced by `toString()`), and the outcome
of the external `callsite-record` rendering: `none` means no record was
produced, `some (.ok s)` means `renderSync` returned `s`, and `some (.error ())`
means rendering threw (the client catches and logs that). -/
structure ErrObj where
  message : String := ""
  inspect : Option String := none
  actual : Option String := none
  expected : Option String := none
  renderedStack : Option (Except Unit String) := none
deriving DecidableEq

/-- JS `value.split(sep)` for a one-character separator, character-level:
split a list of characters at each occurrence of `sep`. -/
def splitChars (sep : Char) : List Char → List (List Char)
  | [] => [[]]
  | c :: cs =>
    match splitChars sep cs with
    | [] => [[]]
    | l :: ls => if c = sep then [] :: l :: ls else (c :: l) :: ls

/-- JS `value.split("\n")`: the list of newline-separated segments. -/
def splitNl (s : String) : List String := (splitChars '\n' s.data).map String.mk

/-- JS `value.split("/")`: the list of slash-separated segments. -/
def splitSlash (s : String) : List String := (splitChars '/' s.data).map String.mk

/-- The mocha/cypress/codeceptjs-style diff block appended to the stack when the
error carries truthy `actual` and `expected` values (client.js lines 122-133):
a header naming both tags, then the actual value prefixed line-by-line with
`- ` in red, then the expected value prefixed line-by-line with `+ ` in green. -/
def diffBlock (actualV expectedV : String) : String :=
  "\n\n" ++ chalkBold (chalkGreen ("+ expected")) ++ " " ++ chalkBold (chalkRed ("- actual"))
    ++ "\n" ++ chalkRed ("- " ++ String.intercalate ("\n- ") (splitNl actualV))
    ++ "\n" ++ chalkGreen ("+ " ++ String.intercalate ("\n+ ") (splitNl expectedV))
    ++ "\n\n"

/-- The error/step formatter of `addTestRun` (client.js lines 113-157).  Returns
the built `stack` diagnostic together with the possibly updated `message`.
The `callsite-record` rendering is an external call; a thrown rendering
(`some (.error ())`) is caught and logged, leaving the stack as built so far. -/
def buildStack (message0 : String) (error : Option ErrObj) (steps : Option String) :
    String × String :=
  let stackMsg :=
    match error with
    | none => ("", message0)
    | some e =>
      let m1 := if message0 = "" then e.message else message0
      let m2 := match e.inspect with
        | some s => s
        | none => m1
      let s1 := "\n" ++ chalkBold m2 ++ "\n"
      let s2 :=
        if (truthyStr e.actual).isSome && (truthyStr e.expected).isSome then
          s1 ++ diffBlock (e.actual.getD ("")) (e.expected.getD (""))
        else s1
      let s3 := match e.renderedStack with
        | some (.ok r) => s2 ++ r
        | _ => s2
      (s3, m2)
  match truthyStr steps with
  | some st =>
    (if stackMsg.1 = "" then st
     else st ++ "\n\n"
        ++ chalkBold (chalkRed ("################[ Failure ]################"))
        ++ "\n" ++ stackMsg.1,
     stackMsg.2)
  | none => stackMsg

/-- A rejected promise: either an HTTP error response (`err.response` present,
with a status code and server message) or a transport-level failure with no
response. -/
inductive JsErr where
  | http (status : Nat) (msg : String)
  | transport
deriving DecidableEq

/-- Outcome of one network operation, decided by the transport collaborator:
a successful response (whose body carries `uid` and `url`, only read by the
run-creation request), an HTTP error response, or a transport failure. -/
inductive NetResult where
  | ok (uid : String) (url : String)
  | httpErr (status : Nat) (msg : String)
  | transportErr
deriving DecidableEq

/-- The rejection a settled network operation propagates, if any. -/
def NetResult.toErr : NetResult → Option JsErr
  | .ok _ _ => none
  | .httpErr s m => some (.http s m)
  | .transportErr => some .transport

/-- Body of the create/update run request (client.js lines 41-47). -/
structure RunParams where
  api_key : String
  title : Option String
  parallel : Bool
  group_title : Option String
  env : Option String
deriving DecidableEq

/-- The wire body of one test result (client.js lines 168-182). -/
structure Payload where
  api_key : String
  files : List String
  steps : Option String
  status : String
  stack : String
  example_ : Option String
  title : Option String
  suite_title : Option String
  suite_id : Option String
  test_id : Option String
  message : String
  run_time : String
  artifacts : List String
deriving DecidableEq

/-- Body of a network request as the transport sees it. -/
inductive ReqBody where
  | runParams (p : RunParams)
  | testPayload (p : Payload)
  | statusBody (api_key : String) (status_event : Option String) (status : String)
deriving DecidableEq

/-- One network operation issued to the transport: method, full URL, body. -/
inductive NetOp where
  | post (url : String) (body : ReqBody)
  | put (url : String) (body : ReqBody)
deriving DecidableEq

/-- Start/finish events of network operations, as the transport observes them. -/
inductive NetEvt where
  | start (tid : Nat) (op : NetOp)
  | finish (tid : Nat) (op : NetOp)
deriving DecidableEq

/-- Data captured by the closure enqueued by `addTestRun` (lines 165-195): the
destructured locals, the built stack and message, and the upload futures
(`uploadedFiles`) already kicked off at call time, here with their eventual
outcomes. -/
structure TaskData where
  api_key : String
  files : List String
  steps : Option String
  status : String
  stack : String
  example_ : Option String
  title : Option String
  suite_title : Option String
  suite_id : Option String
  test_id : Option String
  message : String
  run_time : String
  uploadedFiles : List (Except JsErr String)
deriving DecidableEq

/-- The payload built once the task is dequeued, with the awaited artifacts. -/
def TaskData.payload (d : TaskData) (artifacts : List String) : Payload :=
  { api_key := d.api_key, files := d.files, steps := d.steps, status := d.status
    stack := d.stack, example_ := d.example_, title := d.title
    suite_title := d.suite_title, suite_id := d.suite_id, test_id := d.test_id
    message := d.message, run_time := d.run_time, artifacts := artifacts }

/-- `await Promise.all(uploadedFiles)` over already-settled futures: the first
rejection rejects the whole await. -/
def allOk : List (Except JsErr String) → Except JsErr (List String)
  | [] => .ok []
  | .error e :: _ => .error e
  | .ok a :: rest => (allOk rest).map (a :: ·)

/-- One link of the promise chain `this.queue`.  `tCreate` is the run-creation
request (lines 63-85, with its own `.catch`); `tPut` is the update request
enqueued when an external run id was supplied (lines 58-59, with NO `.catch`);
`tTestRun` is the result submission (lines 165-215, with `.catch`); `tStatus`
is the final status update (lines 226-249, with `.catch`). -/
inductive QTask where
  | tCreate (p : RunParams)
  | tPut (rid : String) (p : RunParams)
  | tTestRun (d : TaskData)
  | tStatus (key : String) (status : String) (isParallel : Bool)
deriving DecidableEq

/-- Whether the link installs its own failure handler.  Only the external-run-id
update (lines 58-59) is chained with a bare `.then` and no `.catch`. -/
def hasCatch : QTask → Bool
  | .tPut _ _ => false
  | _ => true

def isStatusTask : QTask → Bool
  | .tStatus _ _ _ => true
  | _ => false

def isStatusOp : NetOp → Bool
  | .put _ (.statusBody _ _ _) => true
  | _ => false

/-- The client's own mutable fields (constructor, lines 25-32). -/
structure Client where
  apiKey : String
  title : Option String
  parallel : Bool
  runId : Option String
  runUrl : Option String
deriving DecidableEq

/-- The external collaborators and configuration fixed for a scenario:
the reporting base URL (`TESTOMAT_URL`), the outcome of its platform URL-syntax
validation (`new URL(...)`), the run-group/environment tags, the transport's
response to the n-th issued operation, and the artifact resolver's outcome per
(file, runId).  `upload` is Modelled from the spec: `./fileUploader`'s
`uploadFile(file, runId)` is required by the client but is not under `src/`;
the spec specifies it only as `upload(fileRef, runId) -> Future<ArtifactRef>`. -/
structure Env where
  testomatUrl : String
  urlValid : Bool
  rungroupTitle : Option String
  envName : Option String
  respond : Nat → NetResult
  upload : String → String → Except JsErr String

/-- Modelled from the spec: the artifact resolver call `uploadFile(file, runId)`
(the `./fileUploader` module is not under `src/`); its outcome is supplied by
the environment. -/
def uploadFile (env : Env) (file rid : String) : Except JsErr String :=
  env.upload file rid

/-- Whole-system state: the client instance, the process-wide `process.env.runId`,
the pending tail of the promise chain (with enqueue sequence numbers), the
rejection state of the chain at the cursor, the trace of issued operations and
of start/finish events, the artifact-upload requests made so far, and the
count of issued operations (used to index `Env.respond`). -/
structure Sys where
  client : Client
  penvRunId : Option String
  pending : List (Nat × QTask)
  nextId : Nat
  perr : Option JsErr
  net : List (Nat × NetOp)
  evts : List NetEvt
  uploadsReq : List (String × String)
  nOps : Nat
deriving DecidableEq

/-- Record the issue of one network operation: it starts and finishes before
anything else runs (the chain awaits it). -/
def pushOp (s : Sys) (tid : Nat) (op : NetOp) : Sys :=
  { s with
    net := s.net ++ [(tid, op)]
    evts := s.evts ++ [.start tid op, .finish tid op]
    nOps := s.nOps + 1 }

/-- `resp.data.url.split("/").splice(3).join("/")` (lines 69-72): drop the first
three `/`-separated components and rejoin. -/
def urlTail (u : String) : String :=
  String.intercalate ("/") ((splitSlash u).drop 3)

/-- The status-event mapping of `updateRunStatus` (lines 229-232):
`passed → "pass"`, `failed → "fail"`, then `statusEvent += "_parallel"` when in
parallel mode (JS string-appends to `undefined` as `"undefined"` when the
status matched neither constant). -/
def statusEventOf (status : String) (isParallel : Bool) : Option String :=
  let e1 : Option String := none
  let e2 := if status = PASSED then some ("pass") else e1
  let e3 := if status = FAILED then some ("fail") else e2
  if isParallel then some ((e3.getD ("undefined")) ++ "_parallel") else e3

/-- Execute one link of the chain.  A link whose predecessor rejected is
skipped: with a `.catch` the handler absorbs the error (logs only), without one
(`tPut`) the rejection propagates.  Otherwise the link runs: it issues at most
one network operation and settles according to the transport's outcome, its
`.catch` (when present) absorbing any failure. -/
def execTask (env : Env) (s : Sys) (tid : Nat) (t : QTask) : Sys :=
  match s.perr with
  | some _ => if hasCatch t then { s with perr := none } else s
  | none =>
    match t with
    | .tCreate p =>
      let r := env.respond s.nOps
      let s1 := pushOp s tid (.post (env.testomatUrl.trim ++ "/api/reporter") (.runParams p))
      match r with
      | .ok uid url =>
        let c1 := { s1.client with
          runId := some uid
          runUrl := some (env.testomatUrl ++ "/" ++ urlTail url) }
        { s1 with client := c1, penvRunId := some uid, perr := none }
      | _ => { s1 with perr := none }
    | .tPut rid p =>
      let r := env.respond s.nOps
      let s1 := pushOp s tid (.put (env.testomatUrl.trim ++ "/api/reporter/" ++ rid) (.runParams p))
      { s1 with perr := r.toErr }
    | .tTestRun d =>
      match truthyStr s.client.runId with
      | none => s
      | some rid =>
        match allOk d.uploadedFiles with
        | .error _ => { s with perr := none }
        | .ok arts =>
          let s1 := pushOp s tid
            (.post (env.testomatUrl ++ "/api/reporter/" ++ rid ++ "/testrun")
              (.testPayload (d.payload arts)))
          { s1 with perr := none }
    | .tStatus key st ip =>
      match truthyStr s.client.runId with
      | none => s
      | some rid =>
        let s1 := pushOp s tid
          (.put (env.testomatUrl ++ "/api/reporter/" ++ rid)
            (.statusBody key (statusEventOf st ip) st))
        { s1 with perr := none }

/-- What `createRun` hands back to its caller: `aborted` (invalid report URL:
log and `return` with no value, nothing enqueued), `immediate rid`
(`Promise.resolve(runId)`, produced synchronously without waiting on the
queue), or `queued` (the chain itself, which settles after the create task). -/
inductive CreateRes where
  | aborted
  | immediate (runId : String)
  | queued
deriving DecidableEq

/-- The run parameters built at the top of `createRun` (lines 41-47). -/
def runParamsOf (env : Env) (c : Client) : RunParams :=
  { api_key := c.apiKey.trim, title := c.title, parallel := c.parallel
    group_title := env.rungroupTitle, env := env.envName }

/-- `createRun` (lines 39-88): build the params, abort on an invalid report
URL, otherwise either enqueue an update against an externally supplied run id
(setting `this.runId` synchronously and resolving immediately with that id) or
enqueue the create request. -/
def createRunCall (env : Env) (s : Sys) : Sys × CreateRes :=
  let p := runParamsOf env s.client
  if env.urlValid = false then (s, .aborted)
  else
    match truthyStr s.penvRunId with
    | some rid =>
      ({ s with
          client := { s.client with runId := some rid }
          pending := s.pending ++ [(s.nextId, .tPut rid p)]
          nextId := s.nextId + 1 },
       .immediate rid)
    | none =>
      ({ s with
          pending := s.pending ++ [(s.nextId, .tCreate p)]
          nextId := s.nextId + 1 },
       .queued)

/-- The result descriptor passed to `addTestRun` (destructured at lines 95-107,
with the same defaults). -/
structure TestData where
  message : Option String := none
  error : Option ErrObj := none
  time : Option String := none
  example_ : Option String := none
  files : List String := []
  steps : Option String := none
  title : Option String := none
  suite_title : Option String := none
  suite_id : Option String := none
  test_id : Option String := none
deriving DecidableEq

/-- `addTestRun` (lines 95-218) at call time: destructure the descriptor, build
the diagnostic stack, kick off the artifact uploads when a run id is already
resolved, and enqueue the submission task.
Note on line 111: `if (testId) testData.test_id = testId;` mutates the
descriptor object only; the destructured local `test_id` (line 106), which is
what the payload later uses (line 178), still holds the original
`testData.test_id`, so the explicit parameter is dropped here exactly as in
the source. -/
def addTestRunCall (env : Env) (s : Sys) (_testId : Option String) (status : String)
    (td : TestData) : Sys :=
  let message0 := td.message.getD ("")
  let time := td.time.getD ("")
  let stackMsg := buildStack message0 td.error td.steps
  let uploads :=
    match truthyStr s.client.runId with
    | some rid => (td.files.map (fun f => (f, rid)), td.files.map (fun f => uploadFile env f rid))
    | none => ([], [])
  let d : TaskData :=
    { api_key := s.client.apiKey, files := td.files, steps := td.steps
      status := status, stack := stackMsg.1, example_ := td.example_
      title := td.title, suite_title := td.suite_title, suite_id := td.suite_id
      test_id := td.test_id, message := stackMsg.2, run_time := time
      uploadedFiles := uploads.2 }
  { s with
    pending := s.pending ++ [(s.nextId, .tTestRun d)]
    nextId := s.nextId + 1
    uploadsReq := s.uploadsReq ++ uploads.1 }

/-- `updateRunStatus` (lines 225-251) at call time: enqueue the status task. -/
def updateRunStatusCall (s : Sys) (status : String) (isParallel : Bool) : Sys :=
  { s with
    pending := s.pending ++ [(s.nextId, .tStatus s.client.apiKey status isParallel)]
    nextId := s.nextId + 1 }

/-- Scheduler events: the public calls, plus `evStep`, which lets the
event loop run the next pending link of the chain.  Interleaving `evStep`
events arbitrarily with the calls models callers that submit work while the
queue is already executing. -/
inductive Ev where
  | evCreateRun
  | evAdd (testId : Option String) (status : String) (td : TestData)
  | evUpd (status : String) (isParallel : Bool)
  | evStep
deriving DecidableEq

def isCall : Ev → Bool
  | .evStep => false
  | _ => true

/-- One scheduler step. -/
def stepEv (env : Env) (s : Sys) : Ev → Sys
  | .evCreateRun => (createRunCall env s).1
  | .evAdd tid st td => addTestRunCall env s tid st td
  | .evUpd st ip => updateRunStatusCall s st ip
  | .evStep =>
    match s.pending with
    | [] => s
    | (tid, t) :: rest => execTask env { s with pending := rest } tid t

/-- Run a whole event sequence. -/
def runEvs (env : Env) (s : Sys) (evs : List Ev) : Sys :=
  evs.foldl (stepEv env) s

/-- Execute a list of links in order. -/
def runTasks (env : Env) : Sys → List (Nat × QTask) → Sys
  | s, [] => s
  | s, (tid, t) :: ts => runTasks env (execTask env s tid t) ts

/-- Let the event loop settle the whole chain: run every pending link. -/
def drain (env : Env) (s : Sys) : Sys :=
  runTasks env { s with pending := [] } s.pending

/-- A fresh client/system, as built by the constructor (lines 25-32) from an
initial `process.env.runId`. -/
def initSys (apiKey : String) (title : Option String) (parallel : Bool)
    (penvRunId : Option String) : Sys :=
  { client := { apiKey := apiKey, title := title, parallel := parallel
                runId := penvRunId, runUrl := none }
    penvRunId := penvRunId, pending := [], nextId := 0, perr := none
    net := [], evts := [], uploadsReq := [], nOps := 0 }

/-! ### Concrete scenarios and specification predicates used by the claims -/

/-- Substring containment, used to speak about a line of the diagnostic
carrying a tagged value. -/
def strContains (s pat : String) : Prop := List.IsInfix pat.toList s.toList

instance (s pat : String) : Decidable (strContains s pat) := by
  unfold strContains
  infer_instance

/-- The title carried by a submitted test-result operation, if the operation is
one. -/
def testPostTitle (op : NetOp) : Option String :=
  match op with
  | .post _ (.testPayload p) => p.title
  | _ => none

/-- The `test_id` field of a submitted test-result operation, if the operation
is one. -/
def testPostId (op : NetOp) : Option String :=
  match op with
  | .post _ (.testPayload p) => p.test_id
  | _ => none

/-- An environment whose transport always succeeds and whose artifact resolver
echoes the file name. -/
def envOkAll : Env :=
  { testomatUrl := "https://x.io", urlValid := true, rungroupTitle := none
    envName := none, respond := fun _ => .ok ("r1") ("https://x.io/a/b")
    upload := fun f _ => .ok f }

/-- An environment whose transport fails the first issued operation (a
transport-level rejection with no response) and succeeds afterwards. -/
def envFirstOpFails : Env :=
  { testomatUrl := "https://x.io", urlValid := true, rungroupTitle := none
    envName := none
    respond := fun n => if n = 0 then .transportErr else .ok ("r1") ("https://x.io/a/b")
    upload := fun f _ => .ok f }

/-- Scenario for claim C2: an external run id is supplied, `createRun` enqueues
its bare update request, then two `addTestRun` calls are made (titles `t1`,
`t2`) and the chain settles, the update request failing at the transport. -/
def sysC2 : Sys :=
  let s0 := initSys ("key") none false (some ("extRun"))
  let s1 := (createRunCall envFirstOpFails s0).1
  let s2 := addTestRunCall envFirstOpFails s1 none PASSED { title := some ("t1") }
  let s3 := addTestRunCall envFirstOpFails s2 none PASSED { title := some ("t2") }
  drain envFirstOpFails s3

/-- Scenario for claim C5: the run id is already resolved (externally supplied
at construction), and `addTestRun` is called with both the explicit test-id
parameter `t-explicit` and an embedded descriptor field `t-embedded`. -/
def sysC5 : Sys :=
  drain envOkAll (addTestRunCall envOkAll (initSys ("key") none false (some ("run1")))
    (some ("t-explicit")) PASSED { test_id := some ("t-embedded") })

/-- The error object of claim C6's scenario: `actual="foo"`, `expected="bar"`. -/
def errC6 : ErrObj := { message := "m", actual := some ("foo"), expected := some ("bar") }

/-- The diagnostic built for claim C6's scenario, split into lines. -/
def linesC6 : List String := splitNl ((buildStack ("") (some errC6) none).1)

/-- What claim C4 asserts of the two subsequent calls when no run id was ever
resolved: they issue no network operation, request no artifact upload, and
their returned futures resolve (the chain is left settled, not rejected). -/
def NoRunIdNoopSpec (env : Env) (s : Sys) (testId : Option String) (st : String)
    (td : TestData) (stU : String) (ipU : Bool) : Prop :=
  (drain env (addTestRunCall env s testId st td)).net = s.net ∧
  (drain env (addTestRunCall env s testId st td)).evts = s.evts ∧
  (drain env (addTestRunCall env s testId st td)).uploadsReq = s.uploadsReq ∧
  (drain env (addTestRunCall env s testId st td)).perr = none ∧
  (drain env (updateRunStatusCall (drain env (addTestRunCall env s testId st td)) stU ipU)).net
    = s.net ∧
  (drain env (updateRunStatusCall (drain env (addTestRunCall env s testId st td)) stU ipU)).evts
    = s.evts ∧
  (drain env (updateRunStatusCall (drain env (addTestRunCall env s testId st td)) stU ipU)).perr
    = none

/-- What claim C7 asserts of `createRun` when an external run id is supplied:
the caller's future is `Promise.resolve(runId)`, produced synchronously (no
network operation has been issued when it is returned); exactly the one update
task is enqueued; and that task, whenever the chain cursor reaches it without a
pending rejection, issues exactly one `PUT` update against that id (never a
create `POST`). -/
def CreateRunExternalSpec (env : Env) (s : Sys) (rid : String) : Prop :=
  (createRunCall env s).2 = .immediate rid ∧
  (createRunCall env s).1.pending
    = s.pending ++ [(s.nextId, .tPut rid (runParamsOf env s.client))] ∧
  (createRunCall env s).1.net = s.net ∧
  (∀ (s' : Sys) (tid : Nat), s'.perr = none →
    (execTask env s' tid (.tPut rid (runParamsOf env s.client))).net =
      s'.net ++ [(tid, .put (env.testomatUrl.trim ++ "/api/reporter/" ++ rid)
        (.runParams (runParamsOf env s.client)))])

/-- What claim C8 asserts: the status-event mapping (`passed → "pass"`,
`failed → "fail"`, with `_parallel` appended in parallel mode), and the two
named wire interactions. -/
def StatusMappingSpec (env : Env) (s : Sys) (tid : Nat) (key rid : String) : Prop :=
  (∀ ip : Bool, statusEventOf PASSED ip = some (if ip then "pass_parallel" else "pass")) ∧
  (∀ ip : Bool, statusEventOf FAILED ip = some (if ip then "fail_parallel" else "fail")) ∧
  (execTask env s tid (.tStatus key PASSED true)).net =
    s.net ++ [(tid, .put (env.testomatUrl ++ "/api/reporter/" ++ rid)
      (.statusBody key (some ("pass_parallel")) PASSED))] ∧
  (execTask env s tid (.tStatus key FAILED false)).net =
    s.net ++ [(tid, .put (env.testomatUrl ++ "/api/reporter/" ++ rid)
      (.statusBody key (some ("fail")) FAILED))]

/-- What claim C10 asserts in the window where `addTestRun` runs before the
created run id is known: no upload is requested at call time, and when the
chain settles (creation succeeding first), the payload is still submitted with
an empty `artifacts` list, and no upload was requested later either. -/
def UnresolvedRunFilesSpec (env : Env) (s : Sys) (tid0 : Nat) (p : RunParams)
    (testId : Option String) (st : String) (td : TestData) (uid : String) : Prop :=
  (addTestRunCall env s testId st td).uploadsReq = s.uploadsReq ∧
  (drain env (addTestRunCall env s testId st td)).uploadsReq = s.uploadsReq ∧
  ∃ pay : Payload,
    (drain env (addTestRunCall env s testId st td)).net =
      s.net ++ [(tid0, .post (env.testomatUrl.trim ++ "/api/reporter") (.runParams p)),
                (s.nextId, .post (env.testomatUrl ++ "/api/reporter/" ++ uid ++ "/testrun")
                  (.testPayload pay))] ∧
    pay.artifacts = [] ∧ pay.files = td.files

/-- Concrete task data used by witnesses. -/
def tdW : TaskData :=
  { api_key := "k", files := [], steps := none, status := "passed", stack := ""
    example_ := none, title := none, suite_title := none, suite_id := none
    test_id := none, message := "", run_time := "", uploadedFiles := [] }

/-- Concrete run parameters used by witnesses. -/
def rpW : RunParams :=
  { api_key := "k", title := none, parallel := false, group_title := none, env := none }

/-- A system whose chain is currently rejected, used by witnesses. -/
def sysPerrW : Sys := { initSys ("k") none false none with perr := some .transport }

/-- A system with no resolved run id and an empty chain, used by witnesses. -/
def sysNoRunW : Sys := initSys ("k") none false none

/-- A system with an externally supplied run id, used by witnesses. -/
def sysExtW : Sys := initSys ("k") none false (some ("extRun"))

/-- A system with a resolved run id, used by witnesses. -/
def sysRunW : Sys := initSys ("k") none false (some ("run1"))

/-- A system whose pending chain holds exactly the run-creation task, as left
by `createRun` on a fresh client with no external run id, used by witnesses. -/
def sysCreateW : Sys := (createRunCall envOkAll (initSys ("k") none false none)).1


/-! ### Cycle-tolerant payload serialization

`addTestRun` serializes its payload with `JsonCycle.stringify` (line 168), from
the `json-cycle` dependency, whose source is not part of this repository.  The
serializer below is Modelled from the spec: a serialization pass over an object
graph that tracks visited object identity by path and replaces repeat visits
with a stable `$ref` reference token, restorable by a compatible deserializer.
Object graphs are given as a heap of objects so that back-references (cycles)
are representable. -/

/-- Modelled from the spec: a value inside an object graph — a primitive, or a
reference `vnode i` to the `i`-th object of the heap (through which cycles
arise). -/
inductive GVal where
  | vstr (s : String)
  | vnum (n : Int)
  | vbool (b : Bool)
  | vnull
  | vnode (i : Nat)
deriving DecidableEq

/-- Modelled from the spec: an object graph as a heap of objects, each a list
of named fields. -/
structure Graph where
  nodes : List (List (String × GVal))
deriving DecidableEq

mutual
/-- Plain (acyclic) JSON trees, the serializer's output (fields as their own
inductive so that all recursions below stay structural). -/
inductive Json where
  | jstr (s : String)
  | jnum (n : Int)
  | jbool (b : Bool)
  | jnull
  | jobj (fields : JFields)

inductive JFields where
  | fnil
  | fcons (key : String) (value : Json) (rest : JFields)
end

/-- Build a field list from a plain list of pairs. -/
def JFields.ofList : List (String × Json) → JFields
  | [] => .fnil
  | (k, v) :: rest => .fcons k v (JFields.ofList rest)

/-- Map a fallible function over a list, failing on the first failure. -/
def mapO {α β : Type} (f : α → Option β) : List α → Option (List β)
  | [] => some []
  | a :: as =>
    match f a, mapO f as with
    | some b, some bs => some (b :: bs)
    | _, _ => none

/-- Every value of the graph is well-formed: node references stay in range. -/
def wfVal (g : Graph) : GVal → Bool
  | .vnode i => i < g.nodes.length
  | _ => true

/-- Every field of every object of the heap is well-formed. -/
def wfGraph (g : Graph) : Bool :=
  g.nodes.all (fun nd => nd.all (fun kv => wfVal g kv.2))

/-- Modelled from the spec: the decycling walk.  `seen` maps every object
already visited to the path string where it was first met; meeting it again
emits the reference marker `\x7b"$ref": path\x7d` instead of recursing.
Recursion into an unvisited object consumes one unit of fuel; `derez_total`
below shows that a fuel of one more than the heap size always suffices, so the
walk terminates on every graph, cyclic or not. -/
def derez (g : Graph) : Nat → List (Nat × String) → String → GVal → Option Json
  | _, _, _, .vstr s => some (.jstr s)
  | _, _, _, .vnum n => some (.jnum n)
  | _, _, _, .vbool b => some (.jbool b)
  | _, _, _, .vnull => some .jnull
  | 0, _, _, .vnode _ => none
  | fuel + 1, seen, path, .vnode i =>
    match List.lookup i seen with
    | some p => some (.jobj (.fcons ("$ref") (.jstr p) .fnil))
    | none =>
      match g.nodes[i]? with
      | none => none
      | some fields =>
        (mapO (fun kv =>
          (derez g fuel ((i, path) :: seen) (path ++ "[\"" ++ kv.1 ++ "\"]") kv.2).map
            (fun j => (kv.1, j))) fields).map (fun l => Json.jobj (JFields.ofList l))

/-- Modelled from the spec: `JsonCycle.stringify`'s cycle-resolution pass,
started at the root with path `$`. -/
def decycle (g : Graph) (root : GVal) : Option Json :=
  derez g (g.nodes.length + 1) [] ("$") root

/-- JSON escaping of one character (quote, backslash and newline). -/
def escChar (c : Char) : String :=
  if c = '"' then "\x5c\"" else if c = '\x5c' then "\x5c\x5c"
  else if c = '\n' then "\x5cn" else String.singleton c

/-- JSON escaping of a string. -/
def jsonEsc (s : String) : String := String.join (s.data.map escChar)

/-- A JSON string literal. -/
def jsonQuote (s : String) : String := "\"" ++ jsonEsc s ++ "\""

mutual
/-- Render a JSON tree to text. -/
def jsonStr : Json → String
  | .jstr s => jsonQuote s
  | .jnum n => toString n
  | .jbool b => if b then "true" else "false"
  | .jnull => "null"
  | .jobj fs => "\x7b" ++ jsonFieldsStr fs ++ "\x7d"

/-- Render a field list to text. -/
def jsonFieldsStr : JFields → String
  | .fnil => ""
  | .fcons k v .fnil => jsonQuote k ++ ":" ++ jsonStr v
  | .fcons k v rest => jsonQuote k ++ ":" ++ jsonStr v ++ "," ++ jsonFieldsStr rest
end

/-- Recognize the reference marker `\x7b"$ref": path\x7d`. -/
def isRefObj : JFields → Option String
  | .fcons ("$ref") (.jstr p) .fnil => some p
  | _ => none

mutual
/-- Collect every (non-marker) object of a JSON tree together with the path at
which it occurs, in preorder. -/
def collectPaths : Json → String → List (String × JFields)
  | .jobj fs, path =>
    match isRefObj fs with
    | some _ => []
    | none => (path, fs) :: collectFieldsPaths fs path
  | _, _ => []

/-- Collect the objects of every field value, with their paths. -/
def collectFieldsPaths : JFields → String → List (String × JFields)
  | .fnil, _ => []
  | .fcons k v rest, path =>
    collectPaths v (path ++ "[\"" ++ k ++ "\"]") ++ collectFieldsPaths rest path
end

/-- Modelled from the spec: the consumer's re-linking of one serialized value —
primitives map back; a reference marker resolves to the object first met at
the recorded path; a nested object resolves to the object collected at the
current path. -/
def jsonToGVal (paths : List String) : Json → String → Option GVal
  | .jstr s, _ => some (.vstr s)
  | .jnum n, _ => some (.vnum n)
  | .jbool b, _ => some (.vbool b)
  | .jnull, _ => some .vnull
  | .jobj fs, path =>
    match isRefObj fs with
    | some p => (List.findIdx? (fun q => q = p) paths).map GVal.vnode
    | none => (List.findIdx? (fun q => q = path) paths).map GVal.vnode

/-- Rebuild one object's fields from their serialized forms. -/
def rebuildFields (paths : List String) (path : String) : JFields → Option (List (String × GVal))
  | .fnil => some []
  | .fcons k v rest =>
    match jsonToGVal paths v (path ++ "[\"" ++ k ++ "\"]"),
        rebuildFields paths path rest with
    | some gv, some gvs => some ((k, gv) :: gvs)
    | _, _ => none

/-- Modelled from the spec: the compatible consumer's parse-back
(`retrocycle`): collect every object with its path, then rebuild the heap,
resolving reference markers back into node references. -/
def retrocycle (j : Json) : Option Graph :=
  let objs := collectPaths j ("$")
  let paths := objs.map Prod.fst
  (mapO (fun ob => rebuildFields paths ob.1 ob.2) objs).map (fun nodes => { nodes := nodes })

/-- A step tree for the C9 scenario: a root step whose child step carries a
back-reference to its ancestor (the root) — a cyclic object graph. -/
def stepsGraphEx : Graph :=
  { nodes := [
      [("title", .vstr ("root step")), ("child", .vnode 1)],
      [("title", .vstr ("sub step")), ("parent", .vnode 0)]] }

/-- The serialization of `stepsGraphEx`: the back-reference became the stable
reference marker pointing at the root path. -/
def stepsJsonEx : Json :=
  .jobj (JFields.ofList [("title", .jstr ("root step")),
    ("child", .jobj (JFields.ofList [("title", .jstr ("sub step")),
      ("parent", .jobj (JFields.ofList [("$ref", .jstr ("$"))]))]))])


/-! ### The ordering specification (claim C1) -/

/-- The two transport events of one network operation: it starts, and —
the chain awaiting it — finishes before anything else is issued. -/
def pairEv (x : Nat × NetOp) : List NetEvt := [.start x.1 x.2, .finish x.1 x.2]

/-- What claim C1 asserts of the settled system, for task ids in `[lo, hi]`
(`lo` = id of the first `addTestRun` call, `hi` = id of the `updateRunStatus`
call): the transport event trace is the operations' start/finish pairs in
issue order with no overlap (never two operations in flight); the issued
operations carry strictly increasing task ids, i.e. they appear in enqueue
order; every operation belongs to one of the enqueued calls, and it is the
status update exactly when it belongs to the last (`updateRunStatus`) call;
and the status update, when sent, is the last operation of the trace. -/
def OrderingSpec (lo hi : Nat) (s : Sys) : Prop :=
  s.evts = s.net.flatMap pairEv ∧
  (s.net.map Prod.fst).Pairwise (· < ·) ∧
  (∀ x ∈ s.net, lo ≤ x.1 ∧ x.1 ≤ hi ∧ (isStatusOp x.2 = true ↔ x.1 = hi)) ∧
  (∀ x ∈ s.net, isStatusOp x.2 = true → s.net.getLast? = some x)

/-- Interpreter invariant for the C1 scenario: after `j` of the `N`
`addTestRun` calls (and the final `updateRunStatus` call when `updDone`) have
enqueued their tasks starting from id `lo`, the issued trace and the pending
chain carry bounded, strictly increasing ids, the trace is bounded by the
pending chain, the event trace is the paired form of the issued trace, and an
operation or pending task is a status one exactly when it is the
`updateRunStatus` task (id `lo + N`, only present once `updDone`). -/
structure QGood (lo N : Nat) (s : Sys) (j : Nat) (updDone : Bool) : Prop where
  nid : s.nextId = lo + j + (cond updDone 1 0)
  jle : j ≤ N
  jn : updDone = true → j = N
  netLo : ∀ x ∈ s.net, lo ≤ x.1
  netHi : ∀ x ∈ s.net, x.1 < s.nextId
  netSorted : (s.net.map Prod.fst).Pairwise (· < ·)
  pendLo : ∀ y ∈ s.pending, lo ≤ y.1
  pendHi : ∀ y ∈ s.pending, y.1 < s.nextId
  pendSorted : (s.pending.map Prod.fst).Pairwise (· < ·)
  netPend : ∀ x ∈ s.net, ∀ y ∈ s.pending, x.1 < y.1
  evOk : s.evts = s.net.flatMap pairEv
  netStat : ∀ x ∈ s.net, (isStatusOp x.2 = true ↔ (x.1 = lo + N ∧ updDone = true))
  pendStat : ∀ y ∈ s.pending, (isStatusTask y.2 = true ↔ (y.1 = lo + N ∧ updDone = true))

/-- The C1 witness scenario's `addTestRun` argument triples. -/
def addsW : List (Option String × String × TestData) :=
  [(none, PASSED, { title := some ("t1") }), (none, PASSED, { title := some ("t2") })]

/-- The C1 witness scenario's event sequence: the two `addTestRun` calls and
the final `updateRunStatus` call, interleaved with chain steps. -/
def evsW : List Ev :=
  [.evAdd none PASSED { title := some ("t1") }, .evStep,
   .evAdd none PASSED { title := some ("t2") },
   .evUpd PASSED false, .evStep]

/-! ### Theorems -/

/-- C3: for every call to `createRun`, `addTestRun` or `updateRunStatus` (with
an API key present), the returned future resolves rather than rejects: whatever
the transport answers (status ≥ 400, transport failure) and whatever the upload
or stack-rendering outcomes were, the chain link belonging to the call settles
with no rejection (`perr = none`), and `createRun` itself returns one of its
three non-rejecting results. -/
theorem reporting_errors_never_propagate :
    ∀ (env : Env) (s : Sys) (tid : Nat) (d : TaskData) (p : RunParams)
      (key st : String) (ip : Bool),
      (execTask env s tid (.tTestRun d)).perr = none ∧
      (execTask env s tid (.tStatus key st ip)).perr = none ∧
      (execTask env s tid (.tCreate p)).perr = none ∧
      ((createRunCall env s).2 = .aborted ∨ (∃ rid, (createRunCall env s).2 = .immediate rid) ∨
        (createRunCall env s).2 = .queued) := by
  intro env s tid d p key st ip
  refine ⟨?_, ?_, ?_, ?_⟩
  · cases hp : s.perr with
    | some e => simp [execTask, hp, hasCatch]
    | none =>
      cases h1 : truthyStr s.client.runId with
      | none => simp [execTask, hp, h1]
      | some rid => cases h2 : allOk d.uploadedFiles <;> simp [execTask, hp, h1, h2, pushOp]
  · cases hp : s.perr with
    | some e => simp [execTask, hp, hasCatch]
    | none =>
      cases h1 : truthyStr s.client.runId with
      | none => simp [execTask, hp, h1]
      | some rid => simp [execTask, hp, h1, pushOp]
  · cases hp : s.perr with
    | some e => simp [execTask, hp, hasCatch]
    | none => cases hr : env.respond s.nOps <;> simp [execTask, hp, hr, pushOp]
  · cases hu : env.urlValid with
    | false => simp [createRunCall, hu]
    | true =>
      cases he : truthyStr s.penvRunId with
      | none => simp [createRunCall, hu, he]
      | some rid => simp [createRunCall, hu, he]

/-- C2 counterexample: with an external run id, `createRun` enqueues its update
request with no failure handler of its own (task 0); when that request fails at
the transport, the very next enqueued operation (the first `addTestRun`, task
1, title `t1`) is skipped — its submission never reaches the transport — while
the later `addTestRun` (task 2, title `t2`) does run.  This falsifies the claim
that every enqueued operation's own failure handler absorbs its error so that
no subsequently enqueued operation is skipped. -/
theorem external_run_put_failure_skips_next_task :
    sysC2.net.map Prod.fst = [0, 2] ∧
    (∀ x ∈ sysC2.net, testPostTitle x.2 ≠ some ("t1")) ∧
    (∃ x ∈ sysC2.net, testPostTitle x.2 = some ("t2")) ∧
    envFirstOpFails.respond 0 = .transportErr := by decide

/-- C2 amended: every task enqueued by `addTestRun`, `updateRunStatus`, or by
`createRun` when no external run id was supplied has its own failure handler,
which absorbs any failure — its own or one propagated from an earlier link —
before the chain continues; the update task enqueued by `createRun` with an
external run id has no handler: a propagated rejection skips it unchanged, and
its own failure leaves the chain rejected (to be absorbed by the next
handler-carrying task, whose action is skipped). -/
theorem queue_failure_absorption :
    (∀ (env : Env) (s : Sys) (tid : Nat) (t : QTask), hasCatch t = true →
        (execTask env s tid t).perr = none) ∧
    (∀ (env : Env) (s : Sys) (tid : Nat) (t : QTask) (e : JsErr),
        s.perr = some e → hasCatch t = true → execTask env s tid t = { s with perr := none }) ∧
    (∀ (env : Env) (s : Sys) (tid : Nat) (rid : String) (p : RunParams) (e : JsErr),
        s.perr = some e → execTask env s tid (.tPut rid p) = s) ∧
    (∀ (env : Env) (s : Sys) (tid : Nat) (rid : String) (p : RunParams),
        s.perr = none → (execTask env s tid (.tPut rid p)).perr = (env.respond s.nOps).toErr) := by
  refine ⟨?_, ?_, ?_, ?_⟩
  · intro env s tid t hc
    cases hp : s.perr with
    | some e => simp [execTask, hp, hc]
    | none =>
      cases t with
      | tCreate p => cases hr : env.respond s.nOps <;> simp [execTask, hp, hr, pushOp]
      | tPut rid p => simp [hasCatch] at hc
      | tTestRun d =>
        cases h1 : truthyStr s.client.runId with
        | none => simp [execTask, hp, h1]
        | some rid => cases h2 : allOk d.uploadedFiles <;> simp [execTask, hp, h1, h2, pushOp]
      | tStatus key st ip =>
        cases h1 : truthyStr s.client.runId with
        | none => simp [execTask, hp, h1]
        | some rid => simp [execTask, hp, h1, pushOp]
  · intro env s tid t e hp hc
    simp [execTask, hp, hc]
  · intro env s tid rid p e hp
    simp [execTask, hp, hasCatch]
  · intro env s tid rid p hp
    simp [execTask, hp, pushOp]

/-- Witness for `queue_failure_absorption` at concrete inputs. -/
theorem queue_failure_absorption_witness :
    (execTask envOkAll sysNoRunW 0 (.tTestRun tdW)).perr = none ∧
    execTask envFirstOpFails sysPerrW 1 (.tTestRun tdW) = { sysPerrW with perr := none } ∧
    execTask envFirstOpFails sysPerrW 2 (.tPut ("r") rpW) = sysPerrW ∧
    (execTask envFirstOpFails sysNoRunW 3 (.tPut ("r") rpW)).perr
      = (envFirstOpFails.respond sysNoRunW.nOps).toErr :=
  ⟨queue_failure_absorption.1 envOkAll sysNoRunW 0 (.tTestRun tdW) rfl,
   queue_failure_absorption.2.1 envFirstOpFails sysPerrW 1 (.tTestRun tdW) .transport rfl rfl,
   queue_failure_absorption.2.2.1 envFirstOpFails sysPerrW 2 ("r") rpW .transport rfl,
   queue_failure_absorption.2.2.2 envFirstOpFails sysNoRunW 3 ("r") rpW rfl⟩

/-- C4: if no run id has been resolved and the chain is idle, a subsequent
`addTestRun` and a subsequent `updateRunStatus` issue no network operation,
request no upload, and their futures resolve. -/
theorem no_run_id_noop (env : Env) (s : Sys) (testId : Option String) (st : String)
    (td : TestData) (stU : String) (ipU : Bool)
    (hrid : truthyStr s.client.runId = none) (hp : s.pending = []) :
    NoRunIdNoopSpec env s testId st td stU ipU := by
  unfold NoRunIdNoopSpec
  cases hperr : s.perr with
  | some e =>
    simp [addTestRunCall, hrid, drain, hp, runTasks, execTask, hperr, hasCatch,
      updateRunStatusCall]
  | none =>
    simp [addTestRunCall, hrid, drain, hp, runTasks, execTask, hperr, hasCatch,
      updateRunStatusCall]

/-- Witness for `no_run_id_noop` at concrete inputs. -/
theorem no_run_id_noop_witness :
    NoRunIdNoopSpec envOkAll sysNoRunW none PASSED {} FAILED false :=
  no_run_id_noop envOkAll sysNoRunW none PASSED {} FAILED false rfl rfl

/-- C5 (evaluating the code at the failing input): with the run id resolved,
calling `addTestRun` with explicit test id `t-explicit` and an embedded
descriptor field `test_id = "t-embedded"` submits a payload whose `test_id` is
the embedded value, not the explicit parameter: line 111 mutates the descriptor
object after the locals were destructured, so the assignment never reaches the
payload. -/
theorem explicit_test_id_does_not_win :
    sysC5.net.map (fun x => testPostId x.2) = [some ("t-embedded")] ∧
    some ("t-embedded") ≠ some ("t-explicit") := by decide

/-- C7: with a valid report URL and an externally supplied run id, `createRun`
resolves immediately with that id (before any network operation), enqueues
exactly one update task, and that task issues exactly one `PUT` update against
that id — never a create `POST`. -/
theorem createRun_external_id_updates_and_resolves (env : Env) (s : Sys) (rid : String)
    (hurl : env.urlValid = true) (hext : truthyStr s.penvRunId = some rid) :
    CreateRunExternalSpec env s rid := by
  unfold CreateRunExternalSpec
  refine ⟨?_, ?_, ?_, ?_⟩
  · simp [createRunCall, hurl, hext]
  · simp [createRunCall, hurl, hext]
  · simp [createRunCall, hurl, hext]
  · intro s' tid hperr
    simp [execTask, hperr, pushOp]

/-- Witness for `createRun_external_id_updates_and_resolves` at concrete
inputs. -/
theorem createRun_external_id_witness :
    CreateRunExternalSpec envOkAll sysExtW ("extRun") :=
  createRun_external_id_updates_and_resolves envOkAll sysExtW ("extRun") rfl rfl

/-- C8: `updateRunStatus` maps `passed → "pass"` and `failed → "fail"`,
appending `"_parallel"` exactly when the parallel flag is set; in particular
`(passed, parallel)` sends `pass_parallel` and `(failed, not parallel)` sends
plain `fail`. -/
theorem updateRunStatus_status_mapping (env : Env) (s : Sys) (tid : Nat) (key rid : String)
    (hrid : truthyStr s.client.runId = some rid) (hperr : s.perr = none) :
    StatusMappingSpec env s tid key rid := by
  have hP : ∀ ip : Bool, statusEventOf PASSED ip = some (if ip then "pass_parallel" else "pass") := by
    intro ip; cases ip <;> rfl
  have hF : ∀ ip : Bool, statusEventOf FAILED ip = some (if ip then "fail_parallel" else "fail") := by
    intro ip; cases ip <;> rfl
  refine ⟨hP, hF, ?_, ?_⟩
  · have h1 : statusEventOf PASSED true = some ("pass_parallel") := hP true
    simp [execTask, hperr, hrid, pushOp, h1]
  · have h2 : statusEventOf FAILED false = some ("fail") := hF false
    simp [execTask, hperr, hrid, pushOp, h2]

/-- Witness for `updateRunStatus_status_mapping` at concrete inputs. -/
theorem updateRunStatus_status_mapping_witness :
    StatusMappingSpec envOkAll sysRunW 0 ("k") ("run1") :=
  updateRunStatus_status_mapping envOkAll sysRunW 0 ("k") ("run1") rfl rfl

/-- C10: if `addTestRun` is called with files while the run id is not yet
resolved, no artifact upload is requested then or later, and — the run id
becoming resolved before the queued task runs — the payload is still
submitted, with an empty `artifacts` list (and the original `files` list). -/
theorem unresolved_run_files_not_uploaded (env : Env) (s : Sys) (tid0 : Nat) (p : RunParams)
    (testId : Option String) (st : String) (td : TestData) (uid rurl : String)
    (hrid : truthyStr s.client.runId = none)
    (hp : s.pending = [(tid0, .tCreate p)])
    (hperr : s.perr = none)
    (hresp : env.respond s.nOps = .ok uid rurl)
    (huid : uid ≠ "")
    (_hfiles : td.files ≠ []) :
    UnresolvedRunFilesSpec env s tid0 p testId st td uid := by
  unfold UnresolvedRunFilesSpec
  have htr : truthyStr (some uid) = some uid := by simp [truthyStr, huid]
  refine ⟨?_, ?_, ?_⟩
  · simp [addTestRunCall, hrid]
  · simp [addTestRunCall, hrid, drain, hp, runTasks, execTask, hperr, hresp, pushOp, htr, allOk]
  · refine ⟨{ api_key := s.client.apiKey, files := td.files, steps := td.steps, status := st
              stack := (buildStack (td.message.getD ("")) td.error td.steps).1
              example_ := td.example_, title := td.title, suite_title := td.suite_title
              suite_id := td.suite_id, test_id := td.test_id
              message := (buildStack (td.message.getD ("")) td.error td.steps).2
              run_time := td.time.getD (""), artifacts := [] }, ?_, rfl, rfl⟩
    simp [addTestRunCall, hrid, drain, hp, runTasks, execTask, hperr, hresp, pushOp, htr,
      allOk, TaskData.payload]

/-- Witness for `unresolved_run_files_not_uploaded` at concrete inputs. -/
theorem unresolved_run_files_not_uploaded_witness :
    UnresolvedRunFilesSpec envOkAll sysCreateW 0 (runParamsOf envOkAll sysCreateW.client)
      none PASSED { files := ["shot.png"] } ("r1") :=
  unresolved_run_files_not_uploaded envOkAll sysCreateW 0
    (runParamsOf envOkAll sysCreateW.client) none PASSED { files := ["shot.png"] }
    ("r1") ("https://x.io/a/b") rfl rfl rfl rfl (by decide) (by decide)

/-- A string whose length is positive is not the empty string. -/
theorem string_ne_empty_of_length (s : String) (h : s.length ≠ 0) : s ≠ "" := by
  intro he
  rw [he] at h
  exact h rfl

/-- C6 counterexample: for an error with `actual="foo"`, `expected="bar"`, the
diagnostic has exactly one line carrying the expected value with its `+ `
marker (`+ bar`) and exactly one line carrying the actual value with its `- `
marker (`- foo`), and the actual line comes first — so no line tagged
"expected" carrying `bar` is followed by a line tagged "actual" carrying
`foo`, contrary to the claimed order. -/
theorem diff_lines_actual_before_expected_cx :
    (linesC6.countP (fun l => decide (strContains l ("+ bar"))) = 1) ∧
    (linesC6.countP (fun l => decide (strContains l ("- foo"))) = 1) ∧
    linesC6.findIdx (fun l => decide (strContains l ("- foo"))) <
      linesC6.findIdx (fun l => decide (strContains l ("+ bar"))) := by decide

/-- C6 amended: for every `addTestRun` call whose error carries truthy
`actual` and `expected` values, the diagnostic contains the diff block, which
consists — in this order — of a header naming both tags (`+ expected`,
`- actual`), then the actual value indented line-by-line with the `- ` marker,
then the expected value indented line-by-line with the `+ ` marker (the actual
line precedes the expected line), followed by a blank separator. -/
theorem diff_lines_order (msg0 : String) (e : ErrObj) (steps : Option String)
    (ha : (truthyStr e.actual).isSome = true) (hx : (truthyStr e.expected).isSome = true) :
    ∃ pre post,
      (buildStack msg0 (some e) steps).1
        = pre ++ diffBlock (e.actual.getD ("")) (e.expected.getD ("")) ++ post ∧
      diffBlock (e.actual.getD ("")) (e.expected.getD (""))
        = ("\n\n" ++ chalkBold (chalkGreen ("+ expected")) ++ " "
            ++ chalkBold (chalkRed ("- actual")))
          ++ ("\n" ++ chalkRed ("- " ++ String.intercalate ("\n- ")
              (splitNl (e.actual.getD ("")))))
          ++ ("\n" ++ chalkGreen ("+ " ++ String.intercalate ("\n+ ")
              (splitNl (e.expected.getD ("")))))
          ++ "\n\n" := by
  have hdb : diffBlock (e.actual.getD ("")) (e.expected.getD (""))
      = ("\n\n" ++ chalkBold (chalkGreen ("+ expected")) ++ " "
          ++ chalkBold (chalkRed ("- actual")))
        ++ ("\n" ++ chalkRed ("- " ++ String.intercalate ("\n- ")
            (splitNl (e.actual.getD ("")))))
        ++ ("\n" ++ chalkGreen ("+ " ++ String.intercalate ("\n+ ")
            (splitNl (e.expected.getD ("")))))
        ++ "\n\n" := by
    simp [diffBlock, String.append_assoc]
  have hL1 : ("\n" : String).length = 1 := rfl
  rcases hrs : e.renderedStack with _ | er
  · cases hst : truthyStr steps with
    | none =>
      refine ⟨?_, ?_, ?_, hdb⟩
      · exact "\n" ++ chalkBold (match e.inspect with
          | some s => s
          | none => if msg0 = "" then e.message else msg0) ++ "\n"
      · exact ""
      · simp [buildStack, ha, hx, hrs, hst, String.append_assoc]
    | some st =>
      refine ⟨?_, ?_, ?_, hdb⟩
      · exact st ++ "\n\n"
          ++ chalkBold (chalkRed ("################[ Failure ]################"))
          ++ "\n" ++ ("\n" ++ chalkBold (match e.inspect with
            | some s => s
            | none => if msg0 = "" then e.message else msg0) ++ "\n")
      · exact ""
      · simp [buildStack, ha, hx, hrs, hst, String.append_assoc]
        intro h
        exact absurd h (string_ne_empty_of_length _
          (by simp [String.length_append, hL1]))
  · rcases er with u | r
    · cases hst : truthyStr steps with
      | none =>
        refine ⟨?_, ?_, ?_, hdb⟩
        · exact "\n" ++ chalkBold (match e.inspect with
            | some s => s
            | none => if msg0 = "" then e.message else msg0) ++ "\n"
        · exact ""
        · simp [buildStack, ha, hx, hrs, hst, String.append_assoc]
      | some st =>
        refine ⟨?_, ?_, ?_, hdb⟩
        · exact st ++ "\n\n"
            ++ chalkBold (chalkRed ("################[ Failure ]################"))
            ++ "\n" ++ ("\n" ++ chalkBold (match e.inspect with
              | some s => s
              | none => if msg0 = "" then e.message else msg0) ++ "\n")
        · exact ""
        · simp [buildStack, ha, hx, hrs, hst, String.append_assoc]
          intro h
          exact absurd h (string_ne_empty_of_length _
            (by simp [String.length_append, hL1]))
    · cases hst : truthyStr steps with
      | none =>
        refine ⟨?_, ?_, ?_, hdb⟩
        · exact "\n" ++ chalkBold (match e.inspect with
            | some s => s
            | none => if msg0 = "" then e.message else msg0) ++ "\n"
        · exact r
        · simp [buildStack, ha, hx, hrs, hst, String.append_assoc]
      | some st =>
        refine ⟨?_, ?_, ?_, hdb⟩
        · exact st ++ "\n\n"
            ++ chalkBold (chalkRed ("################[ Failure ]################"))
            ++ "\n" ++ ("\n" ++ chalkBold (match e.inspect with
              | some s => s
              | none => if msg0 = "" then e.message else msg0) ++ "\n")
        · exact r
        · simp [buildStack, ha, hx, hrs, hst, String.append_assoc]
          intro h
          exact absurd h (string_ne_empty_of_length _
            (by simp [String.length_append, hL1]))

/-- Witness for `diff_lines_order` at the concrete error of the C6 scenario. -/
theorem diff_lines_order_witness :
    ∃ pre post,
      (buildStack ("") (some errC6) none).1
        = pre ++ diffBlock ((errC6.actual).getD ("")) ((errC6.expected).getD ("")) ++ post ∧
      diffBlock ((errC6.actual).getD ("")) ((errC6.expected).getD (""))
        = ("\n\n" ++ chalkBold (chalkGreen ("+ expected")) ++ " "
            ++ chalkBold (chalkRed ("- actual")))
          ++ ("\n" ++ chalkRed ("- " ++ String.intercalate ("\n- ")
              (splitNl ((errC6.actual).getD ("")))))
          ++ ("\n" ++ chalkGreen ("+ " ++ String.intercalate ("\n+ ")
              (splitNl ((errC6.expected).getD ("")))))
          ++ "\n\n" :=
  diff_lines_order ("") errC6 none (by decide) (by decide)

/-- `mapO` succeeds when the function succeeds on every element. -/
theorem mapO_isSome {α β : Type} (f : α → Option β) (l : List α)
    (h : ∀ a ∈ l, (f a).isSome = true) : (mapO f l).isSome = true := by
  induction l with
  | nil => simp [mapO]
  | cons a as ih =>
    have ha := h a (by simp)
    have has : (mapO f as).isSome = true := ih (fun x hx => h x (by simp [hx]))
    rcases Option.isSome_iff_exists.mp ha with ⟨b, hb⟩
    rcases Option.isSome_iff_exists.mp has with ⟨bs, hbs⟩
    simp [mapO, hb, hbs]

/-- If a key is not found by `lookup`, it is not among the keys. -/
theorem lookup_none_not_mem (l : List (Nat × String)) (i : Nat)
    (h : List.lookup i l = none) : i ∉ l.map Prod.fst := by
  induction l with
  | nil => simp
  | cons a as ih =>
    rcases a with ⟨k, v⟩
    by_cases hk : i = k
    · subst hk
      simp [List.lookup] at h
    · have h' : List.lookup i as = none := by
        simpa [List.lookup, beq_eq_false_iff_ne.mpr hk] using h
      simp only [List.map_cons, List.mem_cons]
      push_neg
      exact ⟨hk, ih h'⟩

/-- The decycling walk succeeds on every well-formed graph — cyclic or not —
whenever the fuel exceeds the number of objects not yet visited: each descent
into an unvisited object strictly grows the (duplicate-free, in-range) visited
set, so the walk can descend at most as many times as the heap has objects. -/
theorem derez_total (g : Graph) (hg : wfGraph g = true) :
    ∀ (fuel : Nat) (v : GVal) (seen : List (Nat × String)) (path : String),
      wfVal g v = true →
      (seen.map Prod.fst).Nodup →
      (∀ i ∈ seen.map Prod.fst, i < g.nodes.length) →
      g.nodes.length - seen.length < fuel →
      (derez g fuel seen path v).isSome = true := by
  intro fuel
  induction fuel with
  | zero =>
    intro v seen path _ _ _ hf
    omega
  | succ fuel ih =>
    intro v seen path hv hnd hbd hf
    cases v with
    | vstr s => simp [derez]
    | vnum n => simp [derez]
    | vbool b => simp [derez]
    | vnull => simp [derez]
    | vnode i =>
      cases hlk : List.lookup i seen with
      | some p => simp [derez, hlk]
      | none =>
        have hi : i < g.nodes.length := by simpa [wfVal] using hv
        have hnm : i ∉ seen.map Prod.fst := lookup_none_not_mem seen i hlk
        have hnd' : (i :: seen.map Prod.fst).Nodup := List.nodup_cons.mpr ⟨hnm, hnd⟩
        have hsub : (i :: seen.map Prod.fst) ⊆ List.range g.nodes.length := by
          intro x hx
          rcases List.mem_cons.mp hx with h1 | h2
          · exact h1 ▸ List.mem_range.mpr hi
          · exact List.mem_range.mpr (hbd x h2)
        have hlen : seen.length + 1 ≤ g.nodes.length := by
          have hle := (hnd'.subperm hsub).length_le
          simpa [List.length_range] using hle
        have hget : g.nodes[i]? = some (g.nodes[i]) := List.getElem?_eq_getElem hi
        have hfw : ∀ kv ∈ g.nodes[i], wfVal g kv.2 = true := by
          have hall := (List.all_eq_true.mp hg) (g.nodes[i]) (List.getElem_mem hi)
          intro kv hkv
          exact List.all_eq_true.mp hall kv hkv
        have hmap : (mapO (fun kv =>
            (derez g fuel ((i, path) :: seen) (path ++ "[\"" ++ kv.1 ++ "\"]") kv.2).map
              (fun j => (kv.1, j))) (g.nodes[i])).isSome = true := by
          apply mapO_isSome
          intro kv hkv
          have hrec := ih kv.2 ((i, path) :: seen) (path ++ "[\"" ++ kv.1 ++ "\"]")
            (hfw kv hkv)
            (by simpa using hnd')
            (by
              intro x hx
              simp only [List.map_cons] at hx
              rcases List.mem_cons.mp hx with h1 | h2
              · exact h1 ▸ hi
              · exact hbd x h2)
            (by
              simp only [List.length_cons]
              omega)
          rcases Option.isSome_iff_exists.mp hrec with ⟨j, hj⟩
          simp [hj]
        rcases Option.isSome_iff_exists.mp hmap with ⟨l, hl⟩
        simp [derez, hlk, hget, hl]

/-- C9: the serializer used for `addTestRun` payloads tolerates circular
references: on every well-formed object graph — including cyclic ones such as
a step tree whose node back-references its ancestor — the decycling walk
succeeds (so a finite string is produced without raising), the cycle of the
concrete back-referencing step tree becomes the stable `$ref` marker in a
finite JSON text, and the compatible consumer (`retrocycle`) parses it back to
exactly the original graph. -/
theorem cycle_safe_serialization :
    (∀ (g : Graph) (root : GVal), wfGraph g = true → wfVal g root = true →
      (decycle g root).isSome = true) ∧
    decycle stepsGraphEx (.vnode 0) = some stepsJsonEx ∧
    jsonStr stepsJsonEx
      = "\x7b\"title\":\"root step\",\"child\":\x7b\"title\":\"sub step\",\"parent\":\x7b\"$ref\":\"$\"\x7d\x7d\x7d" ∧
    retrocycle stepsJsonEx = some stepsGraphEx := by
  refine ⟨?_, rfl, rfl, rfl⟩
  intro g root hg hv
  have h := derez_total g hg (g.nodes.length + 1) root [] ("$") hv (by simp) (by simp)
    (by omega)
  simpa [decycle] using h

/-- Witness for the universal part of `cycle_safe_serialization`, at the
concrete cyclic step tree. -/
theorem cycle_safe_serialization_witness :
    (decycle stepsGraphEx (.vnode 1)).isSome = true :=
  cycle_safe_serialization.1 stepsGraphEx (.vnode 1) (by decide) (by decide)

/-- A list of at most one element is vacuously pairwise-related. -/
theorem pairwise_of_len_le_one {α : Type} {R : α → α → Prop} (l : List α)
    (h : l.length ≤ 1) : l.Pairwise R := by
  cases l with
  | nil => simp
  | cons a t =>
    cases t with
    | nil => simp
    | cons b t2 => simp at h

/-- Executing one link appends at most one operation to the issued trace (with
the matching start/finish events), touches neither the pending chain nor the
id counter, and the appended operation carries the link's id and is a status
operation exactly when the link is the status task. -/
theorem execTask_proj (env : Env) (s : Sys) (tid : Nat) (t : QTask) :
    ∃ c : List (Nat × NetOp),
      (execTask env s tid t).net = s.net ++ c ∧
      (execTask env s tid t).evts = s.evts ++ c.flatMap pairEv ∧
      (execTask env s tid t).pending = s.pending ∧
      (execTask env s tid t).nextId = s.nextId ∧
      c.length ≤ 1 ∧
      (∀ x ∈ c, x.1 = tid ∧ isStatusOp x.2 = isStatusTask t) := by
  cases hp : s.perr with
  | some e =>
    refine ⟨[], ?_⟩
    cases t <;> simp [execTask, hp, hasCatch, pairEv]
  | none =>
    cases t with
    | tCreate p =>
      refine ⟨[(tid, .post (env.testomatUrl.trim ++ "/api/reporter") (.runParams p))], ?_⟩
      cases hr : env.respond s.nOps <;>
        simp [execTask, hp, hr, pushOp, pairEv, isStatusOp, isStatusTask]
    | tPut rid p =>
      refine ⟨[(tid, .put (env.testomatUrl.trim ++ "/api/reporter/" ++ rid) (.runParams p))], ?_⟩
      simp [execTask, hp, pushOp, pairEv, isStatusOp, isStatusTask]
    | tTestRun d =>
      cases h1 : truthyStr s.client.runId with
      | none => exact ⟨[], by simp [execTask, hp, h1, pairEv]⟩
      | some rid =>
        cases h2 : allOk d.uploadedFiles with
        | error e => exact ⟨[], by simp [execTask, hp, h1, h2, pairEv]⟩
        | ok arts =>
          refine ⟨[(tid, .post (env.testomatUrl ++ "/api/reporter/" ++ rid ++ "/testrun")
            (.testPayload (d.payload arts)))], ?_⟩
          simp [execTask, hp, h1, h2, pushOp, pairEv, isStatusOp, isStatusTask]
    | tStatus key st ip =>
      cases h1 : truthyStr s.client.runId with
      | none => exact ⟨[], by simp [execTask, hp, h1, pairEv]⟩
      | some rid =>
        refine ⟨[(tid, .put (env.testomatUrl ++ "/api/reporter/" ++ rid)
          (.statusBody key (statusEventOf st ip) st))], ?_⟩
        simp [execTask, hp, h1, pushOp, pairEv, isStatusOp, isStatusTask]

/-- The link interpreter neither reads nor keeps the pending chain: running it
with any pending value gives the same state with that pending value. -/
theorem execTask_pending_irrel (env : Env) (s : Sys) (tid : Nat) (t : QTask)
    (P : List (Nat × QTask)) :
    execTask env { s with pending := P } tid t = { execTask env s tid t with pending := P } := by
  rcases s with ⟨cl, penv, pend, nid, perr, net, evts, ur, nops⟩
  cases hp : perr with
  | some e => cases t <;> simp [execTask, hp, hasCatch]
  | none =>
    cases t with
    | tCreate p => cases hr : env.respond nops <;> simp [execTask, hp, hr, pushOp]
    | tPut rid p => simp [execTask, hp, pushOp]
    | tTestRun d =>
      cases h1 : truthyStr cl.runId with
      | none => simp [execTask, hp, h1]
      | some rid => cases h2 : allOk d.uploadedFiles <;> simp [execTask, hp, h1, h2, pushOp]
    | tStatus key st ip =>
      cases h1 : truthyStr cl.runId with
      | none => simp [execTask, hp, h1]
      | some rid => simp [execTask, hp, h1, pushOp]

/-- Running one link from the head of the pending chain preserves the
interpreter invariant. -/
theorem qgood_exec (env : Env) (lo N : Nat) (s : Sys) (j : Nat) (b : Bool)
    (tid : Nat) (t : QTask) (rest : List (Nat × QTask))
    (hpend : s.pending = (tid, t) :: rest) (hg : QGood lo N s j b) :
    QGood lo N (execTask env { s with pending := rest } tid t) j b := by
  obtain ⟨c, hnet, hevts, hpendp, hnid, hclen, hc⟩ :=
    execTask_proj env { s with pending := rest } tid t
  have hmem : (tid, t) ∈ s.pending := by rw [hpend]; exact List.mem_cons_self _ _
  have htlo : lo ≤ tid := hg.pendLo (tid, t) hmem
  have hthi : tid < s.nextId := hg.pendHi (tid, t) hmem
  have htstat := hg.pendStat (tid, t) hmem
  have hrest : ∀ y ∈ rest, y ∈ s.pending := by
    intro y hy; rw [hpend]; exact List.mem_cons_of_mem _ hy
  have hheadlt : ∀ y ∈ rest, tid < y.1 := by
    have hp := hg.pendSorted
    rw [hpend] at hp
    simp only [List.map_cons, List.pairwise_cons] at hp
    intro y hy
    exact hp.1 y.1 (List.mem_map_of_mem Prod.fst hy)
  have hnp : ∀ x ∈ s.net, x.1 < tid := fun x hx => hg.netPend x hx (tid, t) hmem
  refine ⟨?_, hg.jle, hg.jn, ?_, ?_, ?_, ?_, ?_, ?_, ?_, ?_, ?_, ?_⟩
  · rw [hnid]; exact hg.nid
  · intro x hx
    rw [hnet] at hx
    rcases List.mem_append.mp hx with h | h
    · exact hg.netLo x h
    · rw [(hc x h).1]; exact htlo
  · intro x hx
    rw [hnet] at hx
    rw [hnid]
    rcases List.mem_append.mp hx with h | h
    · exact hg.netHi x h
    · rw [(hc x h).1]; exact hthi
  · rw [hnet, List.map_append]
    apply List.pairwise_append.mpr
    refine ⟨hg.netSorted, pairwise_of_len_le_one _ (by simpa using hclen), ?_⟩
    intro a ha b hb
    rcases List.mem_map.mp ha with ⟨x, hx, rfl⟩
    rcases List.mem_map.mp hb with ⟨y, hy, rfl⟩
    rw [(hc y hy).1]
    exact hnp x hx
  · intro y hy
    rw [hpendp] at hy
    exact hg.pendLo y (hrest y hy)
  · intro y hy
    rw [hpendp] at hy
    rw [hnid]
    exact hg.pendHi y (hrest y hy)
  · rw [hpendp]
    have hp := hg.pendSorted
    rw [hpend] at hp
    simp only [List.map_cons, List.pairwise_cons] at hp
    exact hp.2
  · intro x hx y hy
    rw [hnet] at hx
    rw [hpendp] at hy
    rcases List.mem_append.mp hx with h | h
    · exact hg.netPend x h y (hrest y hy)
    · rw [(hc x h).1]; exact hheadlt y hy
  · rw [hevts, hnet, List.flatMap_append]
    have he : s.evts = s.net.flatMap pairEv := hg.evOk
    exact congrArg (· ++ c.flatMap pairEv) he
  · intro x hx
    rw [hnet] at hx
    rcases List.mem_append.mp hx with h | h
    · exact hg.netStat x h
    · rw [(hc x h).2, (hc x h).1]; exact htstat
  · intro y hy
    rw [hpendp] at hy
    exact hg.pendStat y (hrest y hy)

/-- `addTestRun` at call time only appends one (non-status) task with the next
id and bumps the counter; trace and events are untouched. -/
theorem addTestRunCall_proj (env : Env) (s : Sys) (testId : Option String) (st : String)
    (td : TestData) :
    (addTestRunCall env s testId st td).nextId = s.nextId + 1 ∧
    (addTestRunCall env s testId st td).net = s.net ∧
    (addTestRunCall env s testId st td).evts = s.evts ∧
    (addTestRunCall env s testId st td).pending.map Prod.fst
      = s.pending.map Prod.fst ++ [s.nextId] ∧
    (∀ y ∈ (addTestRunCall env s testId st td).pending,
      y ∈ s.pending ∨ (y.1 = s.nextId ∧ isStatusTask y.2 = false)) := by
  refine ⟨by simp [addTestRunCall], by simp [addTestRunCall], by simp [addTestRunCall],
    by simp [addTestRunCall], ?_⟩
  intro y hy
  rcases y with ⟨a, bt⟩
  simp [addTestRunCall] at hy
  rcases hy with h | ⟨h1, h2⟩
  · exact Or.inl h
  · right
    subst h1
    subst h2
    exact ⟨rfl, rfl⟩

/-- `updateRunStatus` at call time only appends the status task with the next
id and bumps the counter; trace and events are untouched. -/
theorem updateRunStatusCall_proj (s : Sys) (st : String) (ip : Bool) :
    (updateRunStatusCall s st ip).nextId = s.nextId + 1 ∧
    (updateRunStatusCall s st ip).net = s.net ∧
    (updateRunStatusCall s st ip).evts = s.evts ∧
    (updateRunStatusCall s st ip).pending.map Prod.fst
      = s.pending.map Prod.fst ++ [s.nextId] ∧
    (∀ y ∈ (updateRunStatusCall s st ip).pending,
      y ∈ s.pending ∨ (y.1 = s.nextId ∧ isStatusTask y.2 = true)) := by
  refine ⟨by simp [updateRunStatusCall], by simp [updateRunStatusCall],
    by simp [updateRunStatusCall], by simp [updateRunStatusCall], ?_⟩
  intro y hy
  rcases y with ⟨a, bt⟩
  simp [updateRunStatusCall] at hy
  rcases hy with h | ⟨h1, h2⟩
  · exact Or.inl h
  · right
    subst h1
    subst h2
    exact ⟨rfl, rfl⟩

/-- One `addTestRun` call (before `updateRunStatus`) preserves the invariant,
advancing the count of calls made. -/
theorem qgood_add (env : Env) (lo N : Nat) (s : Sys) (j : Nat)
    (testId : Option String) (st : String) (td : TestData)
    (hg : QGood lo N s j false) (hj : j < N) :
    QGood lo N (addTestRunCall env s testId st td) (j + 1) false := by
  obtain ⟨hnid, hnet, hevts, hpmap, hpmem⟩ := addTestRunCall_proj env s testId st td
  have hnextId : s.nextId = lo + j := by have := hg.nid; simpa using this
  refine ⟨?_, hj, ?_, ?_, ?_, ?_, ?_, ?_, ?_, ?_, ?_, ?_, ?_⟩
  · rw [hnid, hnextId]; simp; omega
  · intro h; exact absurd h (by simp)
  · intro x hx; rw [hnet] at hx; exact hg.netLo x hx
  · intro x hx; rw [hnet] at hx; rw [hnid]
    have := hg.netHi x hx; omega
  · rw [hnet]; exact hg.netSorted
  · intro y hy
    rcases hpmem y hy with h | h
    · exact hg.pendLo y h
    · rw [h.1, hnextId]; omega
  · intro y hy
    rw [hnid]
    rcases hpmem y hy with h | h
    · have := hg.pendHi y h; omega
    · rw [h.1]; omega
  · rw [hpmap]
    apply List.pairwise_append.mpr
    refine ⟨hg.pendSorted, by simp, ?_⟩
    intro a ha b hb
    rcases List.mem_map.mp ha with ⟨y, hy, rfl⟩
    have := hg.pendHi y hy
    simp at hb
    omega
  · intro x hx y hy
    rw [hnet] at hx
    rcases hpmem y hy with h | h
    · exact hg.netPend x hx y h
    · rw [h.1]; exact hg.netHi x hx
  · rw [hevts, hnet]; exact hg.evOk
  · intro x hx; rw [hnet] at hx
    have := hg.netStat x hx
    simpa using this
  · intro y hy
    rcases hpmem y hy with h | h
    · have := hg.pendStat y h; simpa using this
    · simp [h.2]

/-- The final `updateRunStatus` call (made once all `N` `addTestRun` calls are
in) preserves the invariant, marking the status task enqueued with the
largest id. -/
theorem qgood_upd (lo N : Nat) (s : Sys) (st : String) (ip : Bool)
    (hg : QGood lo N s N false) :
    QGood lo N (updateRunStatusCall s st ip) N true := by
  obtain ⟨hnid, hnet, hevts, hpmap, hpmem⟩ := updateRunStatusCall_proj s st ip
  have hnextId : s.nextId = lo + N := by have := hg.nid; simpa using this
  refine ⟨?_, le_refl N, fun _ => rfl, ?_, ?_, ?_, ?_, ?_, ?_, ?_, ?_, ?_, ?_⟩
  · rw [hnid, hnextId]; simp
  · intro x hx; rw [hnet] at hx; exact hg.netLo x hx
  · intro x hx; rw [hnet] at hx; rw [hnid]
    have := hg.netHi x hx; omega
  · rw [hnet]; exact hg.netSorted
  · intro y hy
    rcases hpmem y hy with h | h
    · exact hg.pendLo y h
    · rw [h.1, hnextId]; omega
  · intro y hy
    rw [hnid]
    rcases hpmem y hy with h | h
    · have := hg.pendHi y h; omega
    · rw [h.1]; omega
  · rw [hpmap]
    apply List.pairwise_append.mpr
    refine ⟨hg.pendSorted, by simp, ?_⟩
    intro a ha b hb
    rcases List.mem_map.mp ha with ⟨y, hy, rfl⟩
    have := hg.pendHi y hy
    simp at hb
    omega
  · intro x hx y hy
    rw [hnet] at hx
    rcases hpmem y hy with h | h
    · exact hg.netPend x hx y h
    · rw [h.1]; exact hg.netHi x hx
  · rw [hevts, hnet]; exact hg.evOk
  · intro x hx; rw [hnet] at hx
    have hold := hg.netStat x hx
    have hlt : x.1 < lo + N := by
      have := hg.netHi x hx; omega
    simp only [and_true]
    constructor
    · intro hstat
      exact absurd ((hold.mp hstat).2) (by simp)
    · intro hid
      omega
  · intro y hy
    rcases hpmem y hy with h | h
    · have hold := hg.pendStat y h
      have hlt : y.1 < lo + N := by
        have := hg.pendHi y h; omega
      simp only [and_true]
      constructor
      · intro hstat
        exact absurd ((hold.mp hstat).2) (by simp)
      · intro hid
        omega
    · rw [h.2, h.1, hnextId]
      simp

/-- A chain step preserves the invariant. -/
theorem qgood_step (env : Env) (lo N : Nat) (s : Sys) (j : Nat) (b : Bool)
    (hg : QGood lo N s j b) : QGood lo N (stepEv env s .evStep) j b := by
  cases hp : s.pending with
  | nil =>
    have he : stepEv env s .evStep = s := by simp [stepEv, hp]
    rw [he]; exact hg
  | cons y rest =>
    rcases y with ⟨tid, t⟩
    have h := qgood_exec env lo N s j b tid t rest hp hg
    have he : stepEv env s .evStep = execTask env { s with pending := rest } tid t := by
      simp [stepEv, hp]
    rw [he]; exact h

/-- Settling the whole (moved-out) pending chain preserves the invariant. -/
theorem runTasks_good (env : Env) (lo N : Nat) :
    ∀ (ts : List (Nat × QTask)) (s : Sys) (j : Nat) (b : Bool),
      s.pending = ts → QGood lo N s j b →
      QGood lo N (runTasks env { s with pending := [] } ts) j b := by
  intro ts
  induction ts with
  | nil =>
    intro s j b hp hg
    refine ⟨hg.nid, hg.jle, hg.jn, hg.netLo, hg.netHi, hg.netSorted, ?_, ?_, ?_, ?_,
      hg.evOk, hg.netStat, ?_⟩
    · intro y hy; simp [runTasks] at hy
    · intro y hy; simp [runTasks] at hy
    · simp [runTasks]
    · intro x _ y hy; simp [runTasks] at hy
    · intro y hy; simp [runTasks] at hy
  | cons y ts ih =>
    intro s j b hp hg
    rcases y with ⟨tid, t⟩
    have hstep := qgood_exec env lo N s j b tid t ts hp hg
    have hpend' : (execTask env { s with pending := ts } tid t).pending = ts := by
      obtain ⟨c, _, _, hpendp, _, _, _⟩ := execTask_proj env { s with pending := ts } tid t
      simpa using hpendp
    have hih := ih (execTask env { s with pending := ts } tid t) j b hpend' hstep
    rw [execTask_pending_irrel] at hih
    show QGood lo N (runTasks env (execTask env { s with pending := [] } tid t) ts) j b
    rw [execTask_pending_irrel]
    exact hih

/-- Settling the chain (`drain`) preserves the invariant. -/
theorem drain_good (env : Env) (lo N : Nat) (s : Sys) (j : Nat) (b : Bool)
    (hg : QGood lo N s j b) : QGood lo N (drain env s) j b := by
  unfold drain
  exact runTasks_good env lo N s.pending s j b rfl hg

/-- In a strictly increasing-id trace bounded by `M`, an operation with id `M`
is the last one. -/
theorem status_last (l : List (Nat × NetOp)) (M : Nat)
    (hs : (l.map Prod.fst).Pairwise (· < ·))
    (hb : ∀ x ∈ l, x.1 ≤ M) :
    ∀ x ∈ l, x.1 = M → l.getLast? = some x := by
  induction l with
  | nil => intro x hx; simp at hx
  | cons y ys ih =>
    intro x hx hxm
    simp only [List.map_cons, List.pairwise_cons] at hs
    rcases List.mem_cons.mp hx with h1 | h2
    · subst h1
      cases ys with
      | nil => simp
      | cons z zs =>
        exfalso
        have hyz : x.1 < z.1 := hs.1 z.1 (by simp)
        have hzM : z.1 ≤ M := hb z (by simp)
        omega
    · cases ys with
      | nil => simp at h2
      | cons z zs =>
        rw [List.getLast?_cons_cons]
        exact ih hs.2 (fun w hw => hb w (List.mem_cons_of_mem _ hw)) x h2 hxm

/-- The initial invariant: an idle system with an empty trace. -/
theorem qgood_init (N : Nat) (s0 : Sys)
    (hpend : s0.pending = []) (hnet : s0.net = []) (hevts : s0.evts = []) :
    QGood s0.nextId N s0 0 false := by
  refine ⟨by simp, by omega, by simp, ?_, ?_, ?_, ?_, ?_, ?_, ?_, ?_, ?_, ?_⟩
  · intro x hx; rw [hnet] at hx; simp at hx
  · intro x hx; rw [hnet] at hx; simp at hx
  · rw [hnet]; simp
  · intro y hy; rw [hpend] at hy; simp at hy
  · intro y hy; rw [hpend] at hy; simp at hy
  · rw [hpend]; simp
  · intro x hx; rw [hnet] at hx; simp at hx
  · rw [hevts, hnet]; simp
  · intro x hx; rw [hnet] at hx; simp at hx
  · intro y hy; rw [hpend] at hy; simp at hy

/-- Processing any event sequence whose calls are the remaining `addTestRun`
calls followed by the one `updateRunStatus` call carries the invariant to its
final form. -/
theorem runEvs_good (env : Env) (lo N : Nat)
    (adds : List (Option String × String × TestData)) (u : String × Bool)
    (hN : adds.length = N) :
    ∀ (evs : List Ev) (s : Sys) (j : Nat) (b : Bool),
      QGood lo N s j b →
      evs.filter isCall = (if b = true then [] else
        ((adds.drop j).map (fun a => Ev.evAdd a.1 a.2.1 a.2.2)) ++ [Ev.evUpd u.1 u.2]) →
      QGood lo N (runEvs env s evs) N true := by
  intro evs
  induction evs with
  | nil =>
    intro s j b hg hf
    cases b with
    | true =>
      have hj := hg.jn rfl
      subst hj
      exact hg
    | false =>
      simp at hf
  | cons ev rest ih =>
    intro s j b hg hf
    have hrun : runEvs env s (ev :: rest) = runEvs env (stepEv env s ev) rest := by
      simp [runEvs]
    rw [hrun]
    cases ev with
    | evStep =>
      have hf' : rest.filter isCall = (if b = true then [] else
          ((adds.drop j).map (fun a => Ev.evAdd a.1 a.2.1 a.2.2)) ++ [Ev.evUpd u.1 u.2]) := by
        simpa [List.filter, isCall] using hf
      exact ih (stepEv env s .evStep) j b (qgood_step env lo N s j b hg) hf'
    | evCreateRun =>
      exfalso
      cases b with
      | true => simp [List.filter, isCall] at hf
      | false =>
        rcases hd : adds.drop j with _ | ⟨a, as⟩ <;>
          simp [List.filter, isCall, hd] at hf
    | evAdd ti st td =>
      cases b with
      | true => exfalso; simp [List.filter, isCall] at hf
      | false =>
        rcases hd : adds.drop j with _ | ⟨a, as⟩
        · exfalso; simp [List.filter, isCall, hd] at hf
        · have hj : j < N := by
            by_contra hge
            have : adds.drop j = [] := List.drop_eq_nil_of_le (by omega)
            rw [this] at hd; simp at hd
          have hf' : rest.filter isCall
              = ((adds.drop (j + 1)).map (fun a => Ev.evAdd a.1 a.2.1 a.2.2))
                ++ [Ev.evUpd u.1 u.2] := by
            have hdrop : adds.drop (j + 1) = as := by
              have h1 : adds.drop (j + 1) = (adds.drop j).drop 1 := by
                rw [List.drop_drop]
              rw [h1, hd]
              rfl
            rw [hdrop]
            have := hf
            simp only [List.filter, isCall, hd, List.map_cons, if_pos rfl] at this ⊢
            simpa using (List.cons.injEq _ _ _ _ ▸ this).2
          have hg' := qgood_add env lo N s j ti st td hg hj
          have := ih (stepEv env s (.evAdd ti st td)) (j + 1) false hg' (by
            simpa using hf')
          simpa [stepEv] using this
    | evUpd a b2 =>
      cases b with
      | true => exfalso; simp [List.filter, isCall] at hf
      | false =>
        rcases hd : adds.drop j with _ | ⟨x, xs⟩
        · have hj : j = N := by
            have hle : adds.length ≤ j := List.drop_eq_nil_iff.mp hd
            have := hg.jle
            omega
          have hf' : rest.filter isCall = ([] : List Ev) := by
            simp only [List.filter, isCall, hd, List.map_nil, List.nil_append,
              if_pos rfl] at hf
            exact (List.cons.injEq _ _ _ _ ▸ hf).2
          have hgN : QGood lo N s N false := hj ▸ hg
          have hg' := qgood_upd lo N s a b2 hgN
          have := ih (stepEv env s (.evUpd a b2)) N true hg' (by simp [hf'])
          simpa [stepEv] using this
        · exfalso
          simp [List.filter, isCall, hd] at hf

/-- C1: for any interleaving — any event sequence on one client whose calls
are some list of `addTestRun` calls followed by one `updateRunStatus` call,
with chain steps scheduled arbitrarily between them — once the chain settles,
the transport saw the operations one at a time (each finishing before the next
starts), in enqueue order (strictly increasing task ids), and the status
update, when sent, is the last operation. -/
theorem addTestRun_updateRunStatus_ordering (env : Env) (s0 : Sys)
    (adds : List (Option String × String × TestData)) (u : String × Bool) (evs : List Ev)
    (hpend : s0.pending = []) (hnet : s0.net = []) (hevts : s0.evts = [])
    (hcalls : evs.filter isCall
      = (adds.map (fun a => Ev.evAdd a.1 a.2.1 a.2.2)) ++ [Ev.evUpd u.1 u.2]) :
    OrderingSpec s0.nextId (s0.nextId + adds.length)
      (drain env (runEvs env s0 evs)) := by
  have hg0 : QGood s0.nextId adds.length s0 0 false :=
    qgood_init adds.length s0 hpend hnet hevts
  have hrun : QGood s0.nextId adds.length (runEvs env s0 evs) adds.length true :=
    runEvs_good env s0.nextId adds.length adds u rfl evs s0 0 false hg0
      (by simpa using hcalls)
  have hgF : QGood s0.nextId adds.length (drain env (runEvs env s0 evs)) adds.length true :=
    drain_good env s0.nextId adds.length _ adds.length true hrun
  have hnid := hgF.nid
  refine ⟨hgF.evOk, hgF.netSorted, ?_, ?_⟩
  · intro x hx
    have h1 := hgF.netLo x hx
    have h2 := hgF.netHi x hx
    have h3 := hgF.netStat x hx
    refine ⟨h1, ?_, ?_⟩
    · rw [hnid] at h2
      simp at h2
      omega
    · simpa using h3
  · intro x hx hop
    have hb : ∀ z ∈ (drain env (runEvs env s0 evs)).net, z.1 ≤ s0.nextId + adds.length := by
      intro z hz
      have h := hgF.netHi z hz
      rw [hnid] at h
      simp at h
      omega
    exact status_last _ (s0.nextId + adds.length) hgF.netSorted hb x hx
      ((hgF.netStat x hx).mp hop).1

/-- Witness for the ordering theorem: two `addTestRun` calls followed by one
`updateRunStatus` call, with chain steps interleaved between them. -/
theorem addTestRun_updateRunStatus_ordering_witness :
    OrderingSpec sysRunW.nextId (sysRunW.nextId + addsW.length)
      (drain envOkAll (runEvs envOkAll sysRunW evsW)) :=
  addTestRun_updateRunStatus_ordering envOkAll sysRunW addsW (PASSED, false) evsW
    rfl rfl rfl (by decide)
